import Mathlib

/-!
Verification of the CommitLabs contracts specification.

The repository ships the contract test suites and shared utilities; the
contract entry points themselves (commitment_nft, commitment_core,
attestation_engine) are modelled here from the specification, with the
in-repo test suites pinning the observable behaviour wherever they
exercise it (error codes, check order, query results).

Machine integers are modelled as Nat / Int with explicit saturation where
the code saturates; fallible operations return Except; the persistent
keyed store of each contract is an association list inside an explicit
state record, and every mutating operation is a state transformer whose
failure leaves the state unchanged (transactional semantics).
-/

namespace CommitLabs

/-- Addresses of the Soroban environment are modelled as natural numbers. -/
abbrev Address := Nat

deriving instance DecidableEq for Except

/-! ## Association-list store helpers -/

/-- Lookup in an association list (first matching key wins). -/
def alookup {α β : Type} [DecidableEq α] : List (α × β) → α → Option β
  | [], _ => none
  | (k, v) :: t, a => if k = a then some v else alookup t a

/-- Lookup with a default value, mirroring storage get with unwrap_or. -/
def adget {α β : Type} [DecidableEq α] (l : List (α × β)) (a : α) (d : β) : β :=
  (alookup l a).getD d

/-- Update the value at a key, appending the binding when the key is absent,
mirroring storage set. -/
def aset {α β : Type} [DecidableEq α] : List (α × β) → α → β → List (α × β)
  | [], a, v => [(a, v)]
  | (k, w) :: t, a, v => if k = a then (k, v) :: t else (k, w) :: aset t a v

/-- Keys of an association list. -/
def akeys {α β : Type} [DecidableEq α] (l : List (α × β)) : List α :=
  l.map Prod.fst

/-! ## Token registry (commitment_nft) data model -/

/-- Error codes of the token registry, from the spec's stable error table
and the codes asserted throughout src/contracts/commitment_nft/src/tests.rs. -/
inductive ContractError where
  | NotInitialized
  | AlreadyInitialized
  | TokenNotFound
  | NotOwner
  | AlreadySettled
  | NotExpired
  | InvalidDuration
  | InvalidMaxLoss
  | InvalidCommitmentType
  | TransferToZeroAddress
  | InvalidCommitmentId
  | NFTLocked
  | Unauthorized
  | Paused
deriving DecidableEq, Repr

/-- Metadata stored with each ownership token (spec §3, Token entity). -/
structure TokenMetadata where
  commitment_id : String
  duration_days : Nat
  max_loss_percent : Nat
  commitment_type : String
  initial_amount : Int
  asset_address : Address
  early_exit_penalty : Nat
  created_at : Nat
  expires_at : Nat
deriving DecidableEq, Repr

/-- A commitment ownership token record. -/
structure Token where
  token_id : Nat
  owner : Address
  is_active : Bool
  metadata : TokenMetadata
deriving DecidableEq, Repr

/-- Events emitted by the token registry. -/
inductive RegEvent where
  | MintEv (token_id : Nat) (owner : Address) (commitment_id : String) (ts : Nat)
  | TransferEv (src dst : Address) (token_id : Nat) (ts : Nat)
  | SettleEv (token_id : Nat) (ts : Nat)
  | PauseEv
  | UnpauseEv
deriving DecidableEq, Repr

/-- Modelled from the spec: the persistent state of the token registry
(commitment_nft contract, whose lib.rs is not in the shipped sources).
The spec describes redundant storage: a token map, a next-id counter, a
total-supply counter, per-address balances, and per-owner token-id lists,
each written separately by every operation. -/
structure RegistryState where
  admin : Option Address
  core : Option Address
  paused : Bool
  next_id : Nat
  supply : Nat
  tokens : List (Nat × Token)
  balances : List (Address × Nat)
  owner_tokens : List (Address × List Nat)
  events : List RegEvent
deriving DecidableEq, Repr

/-- The state of a freshly deployed registry: nothing stored. -/
def initialRegistry : RegistryState :=
  { admin := none, core := none, paused := false, next_id := 0, supply := 0,
    tokens := [], balances := [], owner_tokens := [], events := [] }

/-- Largest u64 value; expires_at arithmetic saturates here. -/
def U64M : Nat := 2 ^ 64 - 1

/-- Saturating u64 addition. -/
def satAdd64 (a b : Nat) : Nat := min (a + b) U64M

/-- Modelled from the spec: set_core_contract designates the single caller
allowed to invoke mint and settle; before a core contract is bound the
tests exercise both operations from arbitrary callers, so the gate only
applies once a binding exists. -/
def blockedByCore (s : RegistryState) (caller : Address) : Bool :=
  match s.core with
  | some c => decide (caller ≠ c)
  | none => false

/-- Modelled from the spec: initialize(admin) — once only, records the
admin; repeated call fails AlreadyInitialized (tests.rs error #2). -/
def execInit (s : RegistryState) (a : Address) : Except ContractError RegistryState :=
  if s.admin = none then .ok { s with admin := some a }
  else .error .AlreadyInitialized

/-- Modelled from the spec: set_core_contract(addr) — admin-gated. -/
def execSetCore (s : RegistryState) (caller c : Address) :
    Except ContractError RegistryState :=
  match s.admin with
  | none => .error .NotInitialized
  | some a => if caller = a then .ok { s with core := some c } else .error .Unauthorized

/-- Modelled from the spec: mint — validates commitment type, id length,
duration and max-loss, writes the token with is_active = true and
expires_at = created_at + duration_days * 86400 saturating into u64,
bumps next-id, supply, the owner's balance and the owner's token list,
and emits a Mint event. -/
def execMint (s : RegistryState) (caller owner : Address) (cid : String)
    (duration maxLoss : Nat) (ctype : String) (amount : Int) (asset : Address)
    (penalty : Nat) (now : Nat) : Except ContractError RegistryState :=
  if s.admin = none then .error .NotInitialized
  else if blockedByCore s caller then .error .Unauthorized
  else if s.paused then .error .Paused
  else if ¬(ctype = "safe" ∨ ctype = "balanced" ∨ ctype = "aggressive") then
    .error .InvalidCommitmentType
  else if cid.length = 0 ∨ 256 < cid.length then .error .InvalidCommitmentId
  else if duration = 0 then .error .InvalidDuration
  else if 100 < maxLoss then .error .InvalidMaxLoss
  else
    let tid := s.next_id
    let md : TokenMetadata :=
      { commitment_id := cid, duration_days := duration, max_loss_percent := maxLoss,
        commitment_type := ctype, initial_amount := amount, asset_address := asset,
        early_exit_penalty := penalty, created_at := now,
        expires_at := satAdd64 now (duration * 86400) }
    let tok : Token := { token_id := tid, owner := owner, is_active := true, metadata := md }
    .ok { s with
      next_id := tid + 1
      supply := s.supply + 1
      tokens := aset s.tokens tid tok
      balances := aset s.balances owner (adget s.balances owner 0 + 1)
      owner_tokens := aset s.owner_tokens owner (adget s.owner_tokens owner [] ++ [tid])
      events := s.events ++ [RegEvent.MintEv tid owner cid now] }

/-- Modelled from the spec: transfer — token must exist, src must own it,
self-transfer is rejected with TransferToZeroAddress even on an active
token (tests.rs test_transfer_to_self), and an active token cannot move
(NFTLocked, integration test test_nft_transfer_locked_until_settled). -/
def execTransfer (s : RegistryState) (src dst : Address) (tid : Nat) (now : Nat) :
    Except ContractError RegistryState :=
  if s.admin = none then .error .NotInitialized
  else if s.paused then .error .Paused
  else match alookup s.tokens tid with
    | none => .error .TokenNotFound
    | some tok =>
      if src ≠ tok.owner then .error .NotOwner
      else if dst = src then .error .TransferToZeroAddress
      else if tok.is_active then .error .NFTLocked
      else
        .ok { s with
          tokens := aset s.tokens tid { tok with owner := dst }
          balances := aset (aset s.balances src (adget s.balances src 0 - 1)) dst
            (adget s.balances dst 0 + 1)
          owner_tokens := aset
            (aset s.owner_tokens src ((adget s.owner_tokens src []).erase tid)) dst
            (adget s.owner_tokens dst [] ++ [tid])
          events := s.events ++ [RegEvent.TransferEv src dst tid now] }

/-- Modelled from the spec: settle — callable only by the bound core
contract; the token must exist, be active (AlreadySettled otherwise, as in
test_settle_already_settled) and be expired (NotExpired otherwise); on
success is_active flips to false and a Settle event is emitted. -/
def execSettle (s : RegistryState) (caller : Address) (tid : Nat) (now : Nat) :
    Except ContractError RegistryState :=
  if s.admin = none then .error .NotInitialized
  else if blockedByCore s caller then .error .Unauthorized
  else if s.paused then .error .Paused
  else match alookup s.tokens tid with
    | none => .error .TokenNotFound
    | some tok =>
      if tok.is_active = false then .error .AlreadySettled
      else if now < tok.metadata.expires_at then .error .NotExpired
      else .ok { s with
        tokens := aset s.tokens tid { tok with is_active := false }
        events := s.events ++ [RegEvent.SettleEv tid now] }

/-- Modelled from the spec: Pausable.pause (shared_utils/pausable.rs
panics when already paused; a panic reverts the operation). -/
def execPause (s : RegistryState) : Except ContractError RegistryState :=
  if s.paused then .error .Paused
  else .ok { s with paused := true, events := s.events ++ [RegEvent.PauseEv] }

/-- Modelled from the spec: Pausable.unpause (panics when not paused). -/
def execUnpause (s : RegistryState) : Except ContractError RegistryState :=
  if s.paused = false then .error .Paused
  else .ok { s with paused := false, events := s.events ++ [RegEvent.UnpauseEv] }

/-- One external operation of the token registry, with the external clock
value it observes. -/
inductive RegOp where
  | initR (a : Address)
  | setCore (caller c : Address)
  | mint (caller owner : Address) (cid : String) (duration maxLoss : Nat)
      (ctype : String) (amount : Int) (asset : Address) (penalty : Nat) (now : Nat)
  | transfer (src dst : Address) (tid : Nat) (now : Nat)
  | settle (caller : Address) (tid : Nat) (now : Nat)
  | pause
  | unpause
deriving DecidableEq, Repr

/-- Dispatch one operation. -/
def execOp (s : RegistryState) : RegOp → Except ContractError RegistryState
  | .initR a => execInit s a
  | .setCore caller c => execSetCore s caller c
  | .mint caller owner cid duration maxLoss ctype amount asset penalty now =>
      execMint s caller owner cid duration maxLoss ctype amount asset penalty now
  | .transfer src dst tid now => execTransfer s src dst tid now
  | .settle caller tid now => execSettle s caller tid now
  | .pause => execPause s
  | .unpause => execUnpause s

/-- Transactional step: a failing operation reverts, leaving the state as
it was. -/
def stepReg (s : RegistryState) (op : RegOp) : RegistryState :=
  match execOp s op with
  | .ok s' => s'
  | .error _ => s

/-- Run a history of operations from the freshly deployed registry. -/
def runReg (ops : List RegOp) : RegistryState :=
  ops.foldl stepReg initialRegistry

/-! ## Token registry queries -/

/-- Modelled from the spec: owner_of fails TokenNotFound on missing ids. -/
def ownerOf (s : RegistryState) (tid : Nat) : Except ContractError Address :=
  match alookup s.tokens tid with
  | none => .error .TokenNotFound
  | some tok => .ok tok.owner

/-- Modelled from the spec: balance_of returns 0 for unknown addresses and
on uninitialized state. -/
def balanceOf (s : RegistryState) (a : Address) : Nat :=
  adget s.balances a 0

/-- Modelled from the spec: total_supply, 0 on uninitialized state. -/
def totalSupply (s : RegistryState) : Nat :=
  s.supply

/-- Modelled from the spec: is_active fails TokenNotFound on missing ids. -/
def isActive (s : RegistryState) (tid : Nat) : Except ContractError Bool :=
  match alookup s.tokens tid with
  | none => .error .TokenNotFound
  | some tok => .ok tok.is_active

/-- Modelled from the spec: is_expired fails TokenNotFound on missing ids
(tests.rs test_is_expired_nonexistent_token, error #3). -/
def isExpired (s : RegistryState) (tid : Nat) (now : Nat) : Except ContractError Bool :=
  match alookup s.tokens tid with
  | none => .error .TokenNotFound
  | some tok => .ok (decide (tok.metadata.expires_at ≤ now))

/-- Modelled from the spec: token_exists; the test suite pins its result
on a missing id to false (test_token_exists), not an error. -/
def tokenExists (s : RegistryState) (tid : Nat) : Bool :=
  (alookup s.tokens tid).isSome

/-- Modelled from the spec: get_metadata returns the full token record and
fails TokenNotFound on missing ids (test_get_metadata_nonexistent_token). -/
def getMetadata (s : RegistryState) (tid : Nat) : Except ContractError Token :=
  match alookup s.tokens tid with
  | none => .error .TokenNotFound
  | some tok => .ok tok

/-- Modelled from the spec: get_nfts_by_owner resolves the per-owner id
list against the token store; empty on uninitialized state. -/
def getNftsByOwner (s : RegistryState) (a : Address) : List Token :=
  (adget s.owner_tokens a []).filterMap (fun tid => alookup s.tokens tid)

/-! ## Commitment ledger (commitment_core) data model -/

/-- Errors of the commitment ledger. -/
inductive CoreError where
  | CommitmentNotFound
  | InvalidState
  | Unauthorized
  | NotExpired
  | AlreadySettled
deriving DecidableEq, Repr

/-- Status of a commitment (spec §3, closed sum). -/
inductive CommitmentStatus where
  | active
  | settled
  | violated
  | early_exit
deriving DecidableEq, Repr

/-- Rules attached to a commitment at creation (spec §3). -/
structure CommitmentRules where
  duration_days : Nat
  max_loss_percent : Nat
  commitment_type : String
  early_exit_penalty : Nat
  min_fee_threshold : Nat
  grace_period_days : Nat
deriving DecidableEq, Repr

/-- A commitment record of the ledger (spec §3). -/
structure Commitment where
  id : String
  owner : Address
  amount : Int
  current_value : Int
  asset : Address
  rules : CommitmentRules
  status : CommitmentStatus
  created_at : Nat
  expires_at : Nat
  nft_token_id : Nat
deriving DecidableEq, Repr

/-- Modelled from the spec: the persistent state of the commitment ledger
(commitment_core contract, whose sources are not shipped): commitments
keyed by their id. -/
structure CoreState where
  commitments : List (String × Commitment)
deriving DecidableEq, Repr

/-- A ledger with no commitments. -/
def emptyCore : CoreState := ⟨[]⟩

/-- Largest i128 value; penalty arithmetic saturates here. -/
def I128M : Int := 2 ^ 127 - 1

/-- Saturating i128 multiplication for the nonnegative operands the
penalty computation feeds it. -/
def satMulI128 (a b : Int) : Int := min (a * b) I128M

/-- Modelled from the spec: the integer drawdown percent
max(0, (amount - value) * 100 / amount), with the truncating division of
Rust i128 arithmetic. -/
def drawdownPercent (amount value : Int) : Int :=
  max 0 (Int.tdiv ((amount - value) * 100) amount)

/-- Modelled from the spec: update_value — only while active; writes the
new current value; if the drawdown percent strictly exceeds
rules.max_loss_percent the commitment transitions to violated. -/
def update_value (s : CoreState) (cid : String) (newValue : Int) :
    Except CoreError CoreState :=
  match alookup s.commitments cid with
  | none => .error .CommitmentNotFound
  | some c =>
    if c.status ≠ CommitmentStatus.active then .error .InvalidState
    else
      let draw := drawdownPercent c.amount newValue
      let st := if (c.rules.max_loss_percent : Int) < draw then
          CommitmentStatus.violated
        else CommitmentStatus.active
      let c' := { c with current_value := newValue, status := st }
      .ok { s with commitments := aset s.commitments cid c' }

/-- Modelled from the spec: early_exit — only while active and only by the
owner; penalty = max(current_value, 0) * early_exit_penalty / 100 with
saturating i128 arithmetic, returned = current_value - penalty and never
below 0; sets the status to early_exit. Returns (state, penalty,
returned). -/
def early_exit (s : CoreState) (cid : String) (caller : Address) :
    Except CoreError (CoreState × Int × Int) :=
  match alookup s.commitments cid with
  | none => .error .CommitmentNotFound
  | some c =>
    if c.status ≠ CommitmentStatus.active then .error .InvalidState
    else if caller ≠ c.owner then .error .Unauthorized
    else
      let penalty := Int.tdiv (satMulI128 (max c.current_value 0)
        (c.rules.early_exit_penalty : Int)) 100
      let returned := max (c.current_value - penalty) 0
      let c' := { c with status := CommitmentStatus.early_exit }
      .ok ({ s with commitments := aset s.commitments cid c' }, penalty, returned)

/-! ## Attestation engine data model -/

/-- Errors of the attestation engine, as named by its test suite. -/
inductive AttestationError where
  | NotInitialized
  | AlreadyInitialized
  | Unauthorized
  | CommitmentNotFound
  | InvalidAttestationType
  | InvalidAmount
deriving DecidableEq, Repr

/-- An appended attestation record (spec §3). -/
structure Attestation where
  commitment_id : String
  attestation_type : String
  data : List (String × String)
  verifier : Address
  timestamp : Nat
  compliant : Bool
deriving DecidableEq, Repr

/-- Cached per-commitment health metrics (spec §3). -/
structure HealthMetrics where
  initial_value : Int
  current_value : Int
  drawdown_percent : Nat
  fees_generated : Int
  last_attestation : Nat
  attestation_count : Nat
deriving DecidableEq, Repr

/-- Metrics before any attestation. -/
def defaultMetrics : HealthMetrics :=
  { initial_value := 0, current_value := 0, drawdown_percent := 0,
    fees_generated := 0, last_attestation := 0, attestation_count := 0 }

/-- Modelled from the spec: the persistent state of the attestation engine
(attestation_engine contract, whose lib.rs is not shipped): admin and core
binding, verifier whitelist, registered attestation types, the append-only
attestation log and cached metrics. -/
structure EngineState where
  admin : Option Address
  core : Option Address
  verifiers : List Address
  att_types : List String
  attestations : List Attestation
  metrics : List (String × HealthMetrics)
deriving DecidableEq, Repr

/-- A freshly deployed, never-initialized engine: everything absent. -/
def emptyEngine : EngineState :=
  { admin := none, core := none, verifiers := [], att_types := [],
    attestations := [], metrics := [] }

/-- Modelled from the spec: attest — the caller must be a whitelisted
verifier, the commitment must exist in the ledger, and the attestation
type must be registered, in that order. The repo's own test
test_attest_without_initialize_fails pins the behaviour on an engine that
was never initialized to Unauthorized (the verifier whitelist is empty),
so the verifier check comes first and no separate initialization check
precedes it. On success the record is appended and the cached metrics
gain one attestation with last_attestation = now. -/
def attest (core : CoreState) (s : EngineState) (caller : Address)
    (cid atype : String) (data : List (String × String)) (compliant : Bool)
    (now : Nat) : Except AttestationError EngineState :=
  if caller ∉ s.verifiers then .error .Unauthorized
  else match alookup core.commitments cid with
    | none => .error .CommitmentNotFound
    | some _ =>
      if atype ∉ s.att_types then .error .InvalidAttestationType
      else
        let m := adget s.metrics cid defaultMetrics
        .ok { s with
          attestations := s.attestations ++
            [{ commitment_id := cid, attestation_type := atype, data := data,
               verifier := caller, timestamp := now, compliant := compliant }]
          metrics := aset s.metrics cid
            { m with attestation_count := m.attestation_count + 1,
                     last_attestation := now } }

/-- Modelled from the spec: verify_compliance — compliant iff the
commitment exists, the stored drawdown metric is within
rules.max_loss_percent, and the drawdown derived from current_value is
within rules.max_loss_percent; a missing commitment yields false. -/
def verify_compliance (core : CoreState) (s : EngineState) (cid : String) : Bool :=
  match alookup core.commitments cid with
  | none => false
  | some c =>
    let m := adget s.metrics cid defaultMetrics
    decide (m.drawdown_percent ≤ c.rules.max_loss_percent) &&
    decide (drawdownPercent c.amount c.current_value ≤ (c.rules.max_loss_percent : Int))

/-! ## Concrete states used by the witnesses -/

/-- A two-operation history: initialize with admin 7, then mint token 0 to
owner 5 with a 1-day duration at time 0. -/
def opsW : List RegOp :=
  [RegOp.initR 7, RegOp.mint 9 5 "c1" 1 10 "safe" 1000 8 5 0]

/-- The registry after running opsW. -/
def sW : RegistryState := runReg opsW

/-- The registry right after initialization by admin 7, before any mint. -/
def sInit : RegistryState := runReg [RegOp.initR 7]

/-- The token minted by opsW. -/
def tokW : Token :=
  { token_id := 0, owner := 5, is_active := true,
    metadata :=
      { commitment_id := "c1", duration_days := 1, max_loss_percent := 10,
        commitment_type := "safe", initial_amount := 1000, asset_address := 8,
        early_exit_penalty := 5, created_at := 0, expires_at := 86400 } }

/-- The registry of opsW with a core contract bound at address 3. -/
def sWcore : RegistryState := { sW with core := some 3 }

/-- The registry of opsW after settling token 0 at time 172800. -/
def sWsettled : RegistryState := stepReg sW (RegOp.settle 9 0 172800)

/-- Default rules used by the concrete ledger states. -/
def rulesW : CommitmentRules :=
  { duration_days := 30, max_loss_percent := 10, commitment_type := "balanced",
    early_exit_penalty := 5, min_fee_threshold := 1000, grace_period_days := 0 }

/-- An active commitment of amount 1000 under rulesW. -/
def cW : Commitment :=
  { id := "cm1", owner := 5, amount := 1000, current_value := 1000, asset := 8,
    rules := rulesW, status := CommitmentStatus.active, created_at := 0,
    expires_at := 2592000, nft_token_id := 0 }

/-- An active commitment whose current value has been driven to 0 (its
rules allow a 100 percent loss, as in the integration test). -/
def cW0 : Commitment :=
  { cW with id := "cm0", current_value := 0,
            rules := { rulesW with max_loss_percent := 100 } }

/-- A ledger holding cW and cW0. -/
def coreW : CoreState := ⟨[("cm1", cW), ("cm0", cW0)]⟩

/-- An initialized engine with verifier 4 and one registered type. -/
def engineW : EngineState :=
  { emptyEngine with admin := some 7, core := some 99, verifiers := [4],
                     att_types := ["health_check"] }

/-- The inductive invariant of the token registry: balance keys are
distinct and sum to the supply, token keys are distinct and below the
next id, and every per-owner id list is duplicate-free, agrees with the
token store about ownership, and has the owner's balance as its length. -/
structure RegInv (s : RegistryState) : Prop where
  bal_keys : (akeys s.balances).Nodup
  bal_sum : (s.balances.map Prod.snd).sum = s.supply
  tok_lt : ∀ p ∈ s.tokens, p.1 < s.next_id
  tok_keys : (akeys s.tokens).Nodup
  own_nodup : ∀ a, (adget s.owner_tokens a []).Nodup
  own_mem : ∀ a tid, tid ∈ adget s.owner_tokens a [] ↔
    ∃ tok, alookup s.tokens tid = some tok ∧ tok.owner = a
  own_len : ∀ a, (adget s.owner_tokens a []).length = adget s.balances a 0

/-! ## Association-list lemmas -/

theorem alookup_aset_self {α β : Type} [DecidableEq α] (l : List (α × β)) (a : α) (v : β) :
    alookup (aset l a v) a = some v := by
  induction l with
  | nil => simp [aset, alookup]
  | cons p t ih =>
    obtain ⟨k, w⟩ := p
    by_cases h : k = a <;> simp [aset, alookup, h, ih]

theorem alookup_aset_ne {α β : Type} [DecidableEq α] (l : List (α × β)) (a b : α) (v : β)
    (h : b ≠ a) : alookup (aset l a v) b = alookup l b := by
  induction l with
  | nil => simp [aset, alookup, Ne.symm h]
  | cons p t ih =>
    obtain ⟨k, w⟩ := p
    by_cases hk : k = a
    · subst hk
      simp [aset, alookup, Ne.symm h]
    · simp [aset, alookup, hk, ih]

theorem adget_aset_self {α β : Type} [DecidableEq α] (l : List (α × β)) (a : α) (v d : β) :
    adget (aset l a v) a d = v := by
  simp [adget, alookup_aset_self]

theorem adget_aset_ne {α β : Type} [DecidableEq α] (l : List (α × β)) (a b : α) (v : β)
    (d : β) (h : b ≠ a) : adget (aset l a v) b d = adget l b d := by
  simp [adget, alookup_aset_ne l a b v h]

theorem mem_akeys_aset {α β : Type} [DecidableEq α] (l : List (α × β)) (a b : α) (v : β) :
    b ∈ akeys (aset l a v) ↔ b ∈ akeys l ∨ b = a := by
  induction l with
  | nil => simp [aset, akeys]
  | cons p t ih =>
    obtain ⟨k, w⟩ := p
    by_cases h : k = a
    · subst h
      simp [aset, akeys]
      tauto
    · simp [aset, akeys, h] at ih ⊢
      tauto

theorem akeys_nodup_aset {α β : Type} [DecidableEq α] (l : List (α × β)) (a : α) (v : β)
    (h : (akeys l).Nodup) : (akeys (aset l a v)).Nodup := by
  induction l with
  | nil => simp [aset, akeys]
  | cons p t ih =>
    obtain ⟨k, w⟩ := p
    by_cases hk : k = a
    · subst hk
      simpa [aset, akeys] using h
    · have hgoal : akeys (aset ((k, w) :: t) a v) = k :: akeys (aset t a v) := by
        simp [aset, hk, akeys]
      rw [hgoal]
      simp only [akeys, List.map_cons, List.nodup_cons] at h
      refine List.nodup_cons.2 ⟨?_, ih h.2⟩
      intro hmem
      rcases (mem_akeys_aset t a k v).1 hmem with hin | heq
      · exact h.1 hin
      · exact hk heq

theorem asum_aset {α : Type} [DecidableEq α] (l : List (α × Nat)) (a : α) (v : Nat) :
    ((aset l a v).map Prod.snd).sum + adget l a 0 = (l.map Prod.snd).sum + v := by
  induction l with
  | nil => simp [aset, adget, alookup]
  | cons p t ih =>
    obtain ⟨k, w⟩ := p
    by_cases h : k = a
    · subst h
      simp [aset, adget, alookup]
      omega
    · simp only [aset, adget, alookup, if_neg h, List.map_cons, List.sum_cons] at ih ⊢
      omega

theorem mem_aset {α β : Type} [DecidableEq α] (l : List (α × β)) (a : α) (v : β)
    (p : α × β) (h : p ∈ aset l a v) : p = (a, v) ∨ p ∈ l := by
  induction l with
  | nil => simpa [aset] using h
  | cons q t ih =>
    obtain ⟨k, w⟩ := q
    by_cases hk : k = a
    · subst hk
      rcases (by simpa [aset] using h : p = (k, v) ∨ p ∈ t) with h1 | h2
      · exact Or.inl h1
      · exact Or.inr (List.mem_cons_of_mem _ h2)
    · rcases (by simpa [aset, hk] using h : p = (k, w) ∨ p ∈ aset t a v) with h1 | h2
      · exact Or.inr (by simp [h1])
      · rcases ih h2 with h3 | h4
        · exact Or.inl h3
        · exact Or.inr (List.mem_cons_of_mem _ h4)

theorem alookup_mem {α β : Type} [DecidableEq α] (l : List (α × β)) (a : α) (v : β)
    (h : alookup l a = some v) : (a, v) ∈ l := by
  induction l with
  | nil => simp [alookup] at h
  | cons p t ih =>
    obtain ⟨k, w⟩ := p
    by_cases hk : k = a
    · subst hk
      simp [alookup] at h
      simp [h]
    · simp only [alookup, if_neg hk] at h
      exact List.mem_cons_of_mem _ (ih h)

theorem alookup_none_of_lt {β : Type} (l : List (Nat × β)) (n : Nat)
    (h : ∀ p ∈ l, p.1 < n) : alookup l n = none := by
  induction l with
  | nil => simp [alookup]
  | cons p t ih =>
    obtain ⟨k, w⟩ := p
    have hk : k < n := h (k, w) (List.mem_cons_self _ _)
    simp only [alookup, if_neg (Nat.ne_of_lt hk)]
    exact ih (fun q hq => h q (List.mem_cons_of_mem _ hq))

theorem adget_not_mem {α β : Type} [DecidableEq α] (l : List (α × β)) (a : α) (d : β)
    (h : a ∉ akeys l) : adget l a d = d := by
  induction l with
  | nil => simp [adget, alookup]
  | cons p t ih =>
    obtain ⟨k, w⟩ := p
    simp only [akeys, List.map_cons, List.mem_cons] at h
    push_neg at h
    simp only [adget, alookup, if_neg (fun hh : k = a => h.1 hh.symm)]
    exact ih (by simpa [akeys] using h.2)

/-- Summing the map-with-default over any duplicate-free list of keys that
covers every key holding a nonzero value yields the sum of all stored
values. -/
theorem sum_adget_covering {α : Type} [DecidableEq α] (B : List (α × Nat)) :
    ∀ as : List α, (akeys B).Nodup → as.Nodup →
    (∀ a, adget B a 0 ≠ 0 → a ∈ as) →
    (as.map (fun a => adget B a 0)).sum = (B.map Prod.snd).sum := by
  induction B with
  | nil =>
    intro as _ _ _
    have : as.map (fun a => adget ([] : List (α × Nat)) a 0) = as.map (fun _ => 0) := by
      simp [adget, alookup]
    rw [this]
    simp
  | cons p B' ih =>
    intro as hB has hcov
    obtain ⟨k, v⟩ := p
    simp only [akeys, List.map_cons, List.nodup_cons] at hB
    have hkB : k ∉ akeys B' := hB.1
    have hgetk : adget ((k, v) :: B') k 0 = v := by simp [adget, alookup]
    have hgetne : ∀ a, a ≠ k → adget ((k, v) :: B') a 0 = adget B' a 0 := by
      intro a ha
      simp [adget, alookup, Ne.symm ha]
    by_cases hmem : k ∈ as
    · have hperm : as.Perm (k :: as.erase k) := List.perm_cons_erase hmem
      have hsum : (as.map (fun a => adget ((k, v) :: B') a 0)).sum =
          ((k :: as.erase k).map (fun a => adget ((k, v) :: B') a 0)).sum :=
        (hperm.map _).sum_eq
      rw [hsum]
      simp only [List.map_cons, List.sum_cons, hgetk]
      have hcongr : (as.erase k).map (fun a => adget ((k, v) :: B') a 0) =
          (as.erase k).map (fun a => adget B' a 0) := by
        apply List.map_congr_left
        intro a ha
        exact hgetne a ((has.mem_erase_iff.1 ha).1)
      rw [hcongr]
      have hres : ((as.erase k).map (fun a => adget B' a 0)).sum =
          (B'.map Prod.snd).sum := by
        apply ih (as.erase k) hB.2 (has.erase k)
        intro a ha
        have hak : a ≠ k := by
          intro hh
          subst hh
          exact ha (adget_not_mem B' a 0 hkB)
        have : adget ((k, v) :: B') a 0 ≠ 0 := by rwa [hgetne a hak]
        exact has.mem_erase_iff.2 ⟨hak, hcov a this⟩
      rw [hres]
    · have hv : v = 0 := by
        by_contra hv
        exact hmem (hcov k (by rwa [hgetk]))
      have hcongr : as.map (fun a => adget ((k, v) :: B') a 0) =
          as.map (fun a => adget B' a 0) := by
        apply List.map_congr_left
        intro a ha
        exact hgetne a (fun hh => hmem (hh ▸ ha))
      rw [hcongr]
      have hres : (as.map (fun a => adget B' a 0)).sum = (B'.map Prod.snd).sum := by
        apply ih as hB.2 has
        intro a ha
        have hak : a ≠ k := by
          intro hh
          subst hh
          exact ha (adget_not_mem B' a 0 hkB)
        exact hcov a (by rwa [hgetne a hak])
      rw [hres]
      simp [hv]

/-- If every element of a list resolves through f to a value satisfying P,
the filterMap keeps the length and every output satisfies P. -/
theorem filterMap_total {α β : Type} (f : α → Option β) (P : β → Prop) :
    ∀ l : List α, (∀ x ∈ l, ∃ y, f x = some y ∧ P y) →
    (l.filterMap f).length = l.length ∧ ∀ y ∈ l.filterMap f, P y := by
  intro l
  induction l with
  | nil => intro _; simp
  | cons x t ih =>
    intro h
    obtain ⟨y, hy, hP⟩ := h x (List.mem_cons_self _ _)
    have ht := ih (fun z hz => h z (List.mem_cons_of_mem _ hz))
    rw [List.filterMap_cons, hy]
    constructor
    · simp [ht.1]
    · intro z hz
      rcases List.mem_cons.1 hz with h1 | h2
      · exact h1 ▸ hP
      · exact ht.2 z h2

theorem nodup_append_one {α : Type} (l : List α) (x : α) (h1 : l.Nodup) (h2 : x ∉ l) :
    (l ++ [x]).Nodup := by
  rw [List.nodup_append]
  exact ⟨h1, List.nodup_singleton x, by simpa [List.disjoint_singleton] using h2⟩

/-! ## Registry invariant preservation -/

theorem regInv_initial : RegInv initialRegistry := by
  refine ⟨?_, ?_, ?_, ?_, ?_, ?_, ?_⟩
  · simp [initialRegistry, akeys]
  · simp [initialRegistry]
  · intro p hp
    simp [initialRegistry] at hp
  · simp [initialRegistry, akeys]
  · intro a
    simp [initialRegistry, adget, alookup]
  · intro a tid
    simp [initialRegistry, adget, alookup]
  · intro a
    simp [initialRegistry, adget, alookup]

theorem regInv_execInit (s s' : RegistryState) (a : Address) (hinv : RegInv s)
    (h : execInit s a = .ok s') : RegInv s' := by
  simp only [execInit] at h
  split at h
  · simp only [Except.ok.injEq] at h
    subst h
    exact ⟨hinv.bal_keys, hinv.bal_sum, hinv.tok_lt, hinv.tok_keys, hinv.own_nodup,
      hinv.own_mem, hinv.own_len⟩
  · cases h

theorem regInv_execSetCore (s s' : RegistryState) (caller c : Address) (hinv : RegInv s)
    (h : execSetCore s caller c = .ok s') : RegInv s' := by
  simp only [execSetCore] at h
  split at h
  · cases h
  split at h
  · simp only [Except.ok.injEq] at h
    subst h
    exact ⟨hinv.bal_keys, hinv.bal_sum, hinv.tok_lt, hinv.tok_keys, hinv.own_nodup,
      hinv.own_mem, hinv.own_len⟩
  · cases h

theorem regInv_execPause (s s' : RegistryState) (hinv : RegInv s)
    (h : execPause s = .ok s') : RegInv s' := by
  simp only [execPause] at h
  split at h
  · cases h
  · simp only [Except.ok.injEq] at h
    subst h
    exact ⟨hinv.bal_keys, hinv.bal_sum, hinv.tok_lt, hinv.tok_keys, hinv.own_nodup,
      hinv.own_mem, hinv.own_len⟩

theorem regInv_execUnpause (s s' : RegistryState) (hinv : RegInv s)
    (h : execUnpause s = .ok s') : RegInv s' := by
  simp only [execUnpause] at h
  split at h
  · cases h
  · simp only [Except.ok.injEq] at h
    subst h
    exact ⟨hinv.bal_keys, hinv.bal_sum, hinv.tok_lt, hinv.tok_keys, hinv.own_nodup,
      hinv.own_mem, hinv.own_len⟩

theorem regInv_execSettle (s s' : RegistryState) (caller : Address) (tid now : Nat)
    (hinv : RegInv s) (h : execSettle s caller tid now = .ok s') : RegInv s' := by
  simp only [execSettle] at h
  split at h
  · cases h
  split at h
  · cases h
  split at h
  · cases h
  split at h
  · cases h
  rename_i tok heq
  split at h
  · cases h
  split at h
  · cases h
  simp only [Except.ok.injEq] at h
  subst h
  have htid_lt : tid < s.next_id := hinv.tok_lt (tid, tok) (alookup_mem s.tokens tid tok heq)
  refine ⟨hinv.bal_keys, hinv.bal_sum, ?_, ?_, hinv.own_nodup, ?_, hinv.own_len⟩
  · intro p hp
    rcases mem_aset s.tokens tid _ p hp with h1 | h2
    · rw [h1]
      exact htid_lt
    · exact hinv.tok_lt p h2
  · exact akeys_nodup_aset s.tokens tid _ hinv.tok_keys
  · intro a t'
    by_cases ht' : t' = tid
    · subst ht'
      constructor
      · intro hmem
        obtain ⟨tok0, htok0, hown0⟩ := (hinv.own_mem a t').1 hmem
        rw [heq] at htok0
        injection htok0 with he
        refine ⟨_, alookup_aset_self _ _ _, ?_⟩
        rw [← he] at hown0
        exact hown0
      · intro hr
        obtain ⟨tok', htok', hown'⟩ := hr
        rw [alookup_aset_self] at htok'
        injection htok' with he'
        apply (hinv.own_mem a t').2
        refine ⟨tok, heq, ?_⟩
        rw [← he'] at hown'
        exact hown'
    · rw [show alookup (aset s.tokens tid { tok with is_active := false }) t' =
          alookup s.tokens t' from alookup_aset_ne _ _ _ _ ht']
      exact hinv.own_mem a t'

theorem regInv_execMint (s s' : RegistryState) (caller owner : Address) (cid : String)
    (duration maxLoss : Nat) (ctype : String) (amount : Int) (asset : Address)
    (penalty now : Nat) (hinv : RegInv s)
    (h : execMint s caller owner cid duration maxLoss ctype amount asset penalty now =
      .ok s') : RegInv s' := by
  simp only [execMint] at h
  split at h
  · cases h
  split at h
  · cases h
  split at h
  · cases h
  split at h
  · cases h
  split at h
  · cases h
  split at h
  · cases h
  split at h
  · cases h
  simp only [Except.ok.injEq] at h
  subst h
  have hnone : alookup s.tokens s.next_id = none :=
    alookup_none_of_lt s.tokens s.next_id hinv.tok_lt
  have hfresh : s.next_id ∉ adget s.owner_tokens owner [] := by
    intro hmem
    obtain ⟨tok0, htok0, _⟩ := (hinv.own_mem owner s.next_id).1 hmem
    rw [hnone] at htok0
    cases htok0
  refine ⟨?_, ?_, ?_, ?_, ?_, ?_, ?_⟩
  · exact akeys_nodup_aset s.balances owner _ hinv.bal_keys
  · have hsum := asum_aset s.balances owner (adget s.balances owner 0 + 1)
    have hbal := hinv.bal_sum
    dsimp only
    omega
  · intro p hp
    rcases mem_aset s.tokens s.next_id _ p hp with h1 | h2
    · rw [h1]
      exact Nat.lt_succ_self _
    · exact Nat.lt_succ_of_lt (hinv.tok_lt p h2)
  · exact akeys_nodup_aset s.tokens s.next_id _ hinv.tok_keys
  · intro a
    by_cases ha : a = owner
    · subst ha
      rw [adget_aset_self]
      exact nodup_append_one _ _ (hinv.own_nodup a) hfresh
    · rw [adget_aset_ne _ _ _ _ _ ha]
      exact hinv.own_nodup a
  · intro a tid
    by_cases ha : a = owner
    · subst ha
      rw [adget_aset_self]
      constructor
      · intro hmem
        rcases List.mem_append.1 hmem with hin | hin
        · obtain ⟨tok0, htok0, hown0⟩ := (hinv.own_mem a tid).1 hin
          have htne : tid ≠ s.next_id := by
            intro hh
            rw [hh, hnone] at htok0
            cases htok0
          refine ⟨tok0, ?_, hown0⟩
          rw [alookup_aset_ne _ _ _ _ htne]
          exact htok0
        · have htide : tid = s.next_id := by simpa using hin
          subst htide
          exact ⟨_, alookup_aset_self _ _ _, rfl⟩
      · intro hr
        obtain ⟨tok0, htok0, hown0⟩ := hr
        by_cases ht : tid = s.next_id
        · subst ht
          simp
        · rw [alookup_aset_ne _ _ _ _ ht] at htok0
          exact List.mem_append.2 (Or.inl ((hinv.own_mem a tid).2 ⟨tok0, htok0, hown0⟩))
    · rw [adget_aset_ne _ _ _ _ _ ha]
      constructor
      · intro hmem
        obtain ⟨tok0, htok0, hown0⟩ := (hinv.own_mem a tid).1 hmem
        have htne : tid ≠ s.next_id := by
          intro hh
          rw [hh, hnone] at htok0
          cases htok0
        refine ⟨tok0, ?_, hown0⟩
        rw [alookup_aset_ne _ _ _ _ htne]
        exact htok0
      · intro hr
        obtain ⟨tok0, htok0, hown0⟩ := hr
        by_cases ht : tid = s.next_id
        · subst ht
          rw [alookup_aset_self] at htok0
          injection htok0 with he
          rw [← he] at hown0
          exact absurd hown0.symm ha
        · rw [alookup_aset_ne _ _ _ _ ht] at htok0
          exact (hinv.own_mem a tid).2 ⟨tok0, htok0, hown0⟩
  · intro a
    by_cases ha : a = owner
    · subst ha
      rw [adget_aset_self, adget_aset_self]
      simp [hinv.own_len a]
    · rw [adget_aset_ne _ _ _ _ _ ha, adget_aset_ne _ _ _ _ _ ha]
      exact hinv.own_len a

theorem regInv_execTransfer (s s' : RegistryState) (src dst : Address) (tid now : Nat)
    (hinv : RegInv s) (h : execTransfer s src dst tid now = .ok s') : RegInv s' := by
  simp only [execTransfer] at h
  split at h
  · cases h
  split at h
  · cases h
  split at h
  · cases h
  rename_i tok heq
  split at h
  · cases h
  rename_i hsrc
  split at h
  · cases h
  rename_i hdst
  split at h
  · cases h
  rename_i hact
  simp only [Except.ok.injEq] at h
  subst h
  rw [not_not] at hsrc
  have hown_tok : tok.owner = src := hsrc.symm
  have hneds : dst ≠ src := hdst
  have htid_lt : tid < s.next_id := hinv.tok_lt (tid, tok) (alookup_mem s.tokens tid tok heq)
  have htid_src : tid ∈ adget s.owner_tokens src [] :=
    (hinv.own_mem src tid).2 ⟨tok, heq, hown_tok⟩
  have htid_dst : tid ∉ adget s.owner_tokens dst [] := by
    intro hmem
    obtain ⟨tok0, htok0, hown0⟩ := (hinv.own_mem dst tid).1 hmem
    rw [heq] at htok0
    injection htok0 with he
    rw [← he] at hown0
    exact hneds (hown0.symm.trans hown_tok)
  have hbs_pos : 1 ≤ adget s.balances src 0 := by
    rw [← hinv.own_len src]
    exact List.length_pos_of_mem htid_src
  refine ⟨?_, ?_, ?_, ?_, ?_, ?_, ?_⟩
  · exact akeys_nodup_aset _ dst _ (akeys_nodup_aset s.balances src _ hinv.bal_keys)
  · have h1 := asum_aset s.balances src (adget s.balances src 0 - 1)
    have h2 := asum_aset (aset s.balances src (adget s.balances src 0 - 1)) dst
      (adget s.balances dst 0 + 1)
    have h3 : adget (aset s.balances src (adget s.balances src 0 - 1)) dst 0 =
        adget s.balances dst 0 := adget_aset_ne _ _ _ _ _ hneds
    have hbal := hinv.bal_sum
    rw [h3] at h2
    dsimp only
    omega
  · intro p hp
    rcases mem_aset s.tokens tid _ p hp with h1 | h2
    · rw [h1]
      exact htid_lt
    · exact hinv.tok_lt p h2
  · exact akeys_nodup_aset s.tokens tid _ hinv.tok_keys
  · intro a
    by_cases had : a = dst
    · subst had
      rw [adget_aset_self]
      exact nodup_append_one _ _ (hinv.own_nodup a) htid_dst
    · rw [adget_aset_ne _ _ _ _ _ had]
      by_cases has : a = src
      · subst has
        rw [adget_aset_self]
        exact (hinv.own_nodup a).erase _
      · rw [adget_aset_ne _ _ _ _ _ has]
        exact hinv.own_nodup a
  · intro a t'
    by_cases had : a = dst
    · subst had
      rw [adget_aset_self]
      constructor
      · intro hmem
        rcases List.mem_append.1 hmem with hin | hin
        · obtain ⟨tok0, htok0, hown0⟩ := (hinv.own_mem a t').1 hin
          have ht' : t' ≠ tid := by
            intro hh
            subst hh
            rw [heq] at htok0
            injection htok0 with he
            rw [← he] at hown0
            exact hneds (hown0.symm.trans hown_tok)
          refine ⟨tok0, ?_, hown0⟩
          rw [alookup_aset_ne _ _ _ _ ht']
          exact htok0
        · have ht'e : t' = tid := by simpa using hin
          subst ht'e
          exact ⟨_, alookup_aset_self _ _ _, rfl⟩
      · intro hr
        obtain ⟨tok', htok', hown'⟩ := hr
        by_cases ht' : t' = tid
        · subst ht'
          simp
        · rw [alookup_aset_ne _ _ _ _ ht'] at htok'
          exact List.mem_append.2 (Or.inl ((hinv.own_mem a t').2 ⟨tok', htok', hown'⟩))
    · rw [adget_aset_ne _ _ _ _ _ had]
      by_cases has : a = src
      · subst has
        rw [adget_aset_self]
        constructor
        · intro hmem
          have hmem' := (hinv.own_nodup a).mem_erase_iff.1 hmem
          obtain ⟨tok0, htok0, hown0⟩ := (hinv.own_mem a t').1 hmem'.2
          refine ⟨tok0, ?_, hown0⟩
          rw [alookup_aset_ne _ _ _ _ hmem'.1]
          exact htok0
        · intro hr
          obtain ⟨tok', htok', hown'⟩ := hr
          by_cases ht' : t' = tid
          · subst ht'
            rw [alookup_aset_self] at htok'
            injection htok' with he
            rw [← he] at hown'
            exact absurd hown' hneds
          · rw [alookup_aset_ne _ _ _ _ ht'] at htok'
            exact (hinv.own_nodup a).mem_erase_iff.2
              ⟨ht', (hinv.own_mem a t').2 ⟨tok', htok', hown'⟩⟩
      · rw [adget_aset_ne _ _ _ _ _ has]
        constructor
        · intro hmem
          obtain ⟨tok0, htok0, hown0⟩ := (hinv.own_mem a t').1 hmem
          have ht' : t' ≠ tid := by
            intro hh
            subst hh
            rw [heq] at htok0
            injection htok0 with he
            rw [← he] at hown0
            exact has (hown0.symm.trans hown_tok)
          refine ⟨tok0, ?_, hown0⟩
          rw [alookup_aset_ne _ _ _ _ ht']
          exact htok0
        · intro hr
          obtain ⟨tok', htok', hown'⟩ := hr
          by_cases ht' : t' = tid
          · subst ht'
            rw [alookup_aset_self] at htok'
            injection htok' with he
            rw [← he] at hown'
            exact absurd hown'.symm had
          · rw [alookup_aset_ne _ _ _ _ ht'] at htok'
            exact (hinv.own_mem a t').2 ⟨tok', htok', hown'⟩
  · intro a
    by_cases had : a = dst
    · subst had
      rw [adget_aset_self, adget_aset_self]
      simp [hinv.own_len a]
    · rw [adget_aset_ne _ _ _ _ _ had, adget_aset_ne _ _ _ _ _ had]
      by_cases has : a = src
      · subst has
        rw [adget_aset_self, adget_aset_self]
        rw [List.length_erase_of_mem htid_src]
        rw [hinv.own_len a]
      · rw [adget_aset_ne _ _ _ _ _ has, adget_aset_ne _ _ _ _ _ has]
        exact hinv.own_len a

theorem regInv_stepReg (s : RegistryState) (op : RegOp) (hinv : RegInv s) :
    RegInv (stepReg s op) := by
  cases op with
  | initR a =>
    simp only [stepReg, execOp]
    cases hex : execInit s a with
    | ok s2 => exact regInv_execInit s s2 a hinv hex
    | error e => exact hinv
  | setCore caller c =>
    simp only [stepReg, execOp]
    cases hex : execSetCore s caller c with
    | ok s2 => exact regInv_execSetCore s s2 caller c hinv hex
    | error e => exact hinv
  | mint caller owner cid duration maxLoss ctype amount asset penalty now =>
    simp only [stepReg, execOp]
    cases hex : execMint s caller owner cid duration maxLoss ctype amount asset penalty now with
    | ok s2 =>
      exact regInv_execMint s s2 caller owner cid duration maxLoss ctype amount asset
        penalty now hinv hex
    | error e => exact hinv
  | transfer src dst tid now =>
    simp only [stepReg, execOp]
    cases hex : execTransfer s src dst tid now with
    | ok s2 => exact regInv_execTransfer s s2 src dst tid now hinv hex
    | error e => exact hinv
  | settle caller tid now =>
    simp only [stepReg, execOp]
    cases hex : execSettle s caller tid now with
    | ok s2 => exact regInv_execSettle s s2 caller tid now hinv hex
    | error e => exact hinv
  | pause =>
    simp only [stepReg, execOp]
    cases hex : execPause s with
    | ok s2 => exact regInv_execPause s s2 hinv hex
    | error e => exact hinv
  | unpause =>
    simp only [stepReg, execOp]
    cases hex : execUnpause s with
    | ok s2 => exact regInv_execUnpause s s2 hinv hex
    | error e => exact hinv

theorem regInv_foldl (ops : List RegOp) :
    ∀ s : RegistryState, RegInv s → RegInv (ops.foldl stepReg s) := by
  induction ops with
  | nil => intro s h; exact h
  | cons op t ih => intro s h; exact ih _ (regInv_stepReg s op h)

/-- Every state reachable by a history of operations satisfies the
registry invariant. -/
theorem regInv_runReg (ops : List RegOp) : RegInv (runReg ops) :=
  regInv_foldl ops initialRegistry regInv_initial

/-! ## Claims -/

/-- C1: after any sequence of token-registry operations, the balances of
any duplicate-free family of addresses covering every address with a
nonzero balance sum to total_supply. -/
theorem C1_balance_supply_conservation (ops : List RegOp) (as : List Address)
    (h1 : as.Nodup) (h2 : ∀ a, balanceOf (runReg ops) a ≠ 0 → a ∈ as) :
    (as.map (fun a => balanceOf (runReg ops) a)).sum = totalSupply (runReg ops) := by
  have hinv := regInv_runReg ops
  have hsum := sum_adget_covering (runReg ops).balances as hinv.bal_keys h1 h2
  exact hsum.trans hinv.bal_sum

/-- Witness for C1 on the concrete two-operation history opsW. -/
theorem C1_balance_supply_conservation_witness :
    (([5] : List Address).map (fun a => balanceOf (runReg opsW) a)).sum =
      totalSupply (runReg opsW) := by
  apply C1_balance_supply_conservation opsW [5] (by decide)
  intro a ha
  have hbal : (runReg opsW).balances = [(5, 1)] := by decide
  by_cases h5 : a = 5
  · simp [h5]
  · exfalso
    apply ha
    simp only [balanceOf, hbal, adget, alookup]
    rw [if_neg (fun hh : (5 : Nat) = a => h5 hh.symm)]
    rfl

/-- C10: after any sequence of registry operations, get_nfts_by_owner(a)
has exactly balance_of(a) records and each returned record is owned by a. -/
theorem C10_nfts_by_owner_consistent (ops : List RegOp) (a : Address) :
    (getNftsByOwner (runReg ops) a).length = balanceOf (runReg ops) a ∧
    ∀ t ∈ getNftsByOwner (runReg ops) a, t.owner = a := by
  have hinv := regInv_runReg ops
  have hall : ∀ tid ∈ adget (runReg ops).owner_tokens a [],
      ∃ tok, alookup (runReg ops).tokens tid = some tok ∧ tok.owner = a :=
    fun tid h => (hinv.own_mem a tid).1 h
  have hfm := filterMap_total (fun tid => alookup (runReg ops).tokens tid)
    (fun tok => tok.owner = a) (adget (runReg ops).owner_tokens a []) hall
  exact ⟨hfm.1.trans (hinv.own_len a), hfm.2⟩

/-- Witness for C10 on the concrete history opsW at address 5. -/
theorem C10_nfts_by_owner_consistent_witness :
    (getNftsByOwner (runReg opsW) 5).length = balanceOf (runReg opsW) 5 ∧
    ∀ t ∈ getNftsByOwner (runReg opsW) 5, t.owner = 5 :=
  C10_nfts_by_owner_consistent opsW 5

/-- C7 (amended): on a missing token id, owner_of, is_active, is_expired
and get_metadata fail TokenNotFound, while token_exists returns false. -/
theorem C7_missing_id_query_behaviour (s : RegistryState) (tid : Nat)
    (h : alookup s.tokens tid = none) :
    ownerOf s tid = .error ContractError.TokenNotFound ∧
    isActive s tid = .error ContractError.TokenNotFound ∧
    (∀ now, isExpired s tid now = .error ContractError.TokenNotFound) ∧
    getMetadata s tid = .error ContractError.TokenNotFound ∧
    tokenExists s tid = false := by
  refine ⟨?_, ?_, ?_, ?_, ?_⟩ <;>
    simp [ownerOf, isActive, isExpired, getMetadata, tokenExists, h]

/-- Counterexample for C7 as stated: on the concrete reachable state of
opsW, id 999 is absent yet token_exists completes with the value false
instead of failing TokenNotFound (as the repo's test_token_exists also
asserts). -/
theorem C7_counterexample :
    alookup (runReg opsW).tokens 999 = none ∧
    tokenExists (runReg opsW) 999 = false := by
  exact ⟨by decide, by decide⟩

/-- Witness for the amended C7 at the concrete state of opsW, id 999. -/
theorem C7_missing_id_query_behaviour_witness :
    ownerOf (runReg opsW) 999 = .error ContractError.TokenNotFound ∧
    isActive (runReg opsW) 999 = .error ContractError.TokenNotFound ∧
    (∀ now, isExpired (runReg opsW) 999 now = .error ContractError.TokenNotFound) ∧
    getMetadata (runReg opsW) 999 = .error ContractError.TokenNotFound ∧
    tokenExists (runReg opsW) 999 = false :=
  C7_missing_id_query_behaviour (runReg opsW) 999 (by decide)

/-- C3: with a core contract bound, settle succeeds only when the caller
is the bound core address; any other caller fails and the registry (in
particular the token's state) is left unchanged. -/
theorem C3_settle_only_core (s : RegistryState) (c caller : Address) (tid now : Nat)
    (hc : s.core = some c) :
    ((∃ s', execSettle s caller tid now = .ok s') → caller = c) ∧
    (caller ≠ c → (∀ s', execSettle s caller tid now ≠ .ok s') ∧
      stepReg s (RegOp.settle caller tid now) = s) := by
  have herr : caller ≠ c → ∃ e, execSettle s caller tid now = .error e := by
    intro hne
    have hb : blockedByCore s caller = true := by
      simp [blockedByCore, hc, hne]
    by_cases hadmin : s.admin = none
    · exact ⟨ContractError.NotInitialized, by simp [execSettle, hadmin]⟩
    · exact ⟨ContractError.Unauthorized, by simp [execSettle, hadmin, hb]⟩
  constructor
  · intro hok
    obtain ⟨s', hs'⟩ := hok
    by_contra hne
    obtain ⟨e, he⟩ := herr hne
    rw [he] at hs'
    cases hs'
  · intro hne
    obtain ⟨e, he⟩ := herr hne
    constructor
    · intro s' hs'
      rw [he] at hs'
      cases hs'
    · simp [stepReg, execOp, he]

/-- Witness for C3 on the concrete state sWcore (core bound at 3),
caller 4. -/
theorem C3_settle_only_core_witness :
    ((∃ s', execSettle sWcore 4 0 172800 = .ok s') → (4 : Address) = 3) ∧
    ((4 : Address) ≠ 3 → (∀ s', execSettle sWcore 4 0 172800 ≠ .ok s') ∧
      stepReg sWcore (RegOp.settle 4 0 172800) = sWcore) :=
  C3_settle_only_core sWcore 3 4 0 172800 rfl

/-- C4: while a token is active every transfer of it fails and leaves the
registry unchanged; when the other preconditions hold the error is
NFTLocked; and after a successful settle the same transfer by the owner
to a distinct recipient succeeds. -/
theorem C4_active_token_locked (s : RegistryState) (tid : Nat) (tok : Token)
    (hlook : alookup s.tokens tid = some tok) (hact : tok.is_active = true) :
    (∀ src dst now, (∃ e, execTransfer s src dst tid now = .error e) ∧
      stepReg s (RegOp.transfer src dst tid now) = s) ∧
    (s.admin ≠ none → s.paused = false → ∀ dst now, dst ≠ tok.owner →
      execTransfer s tok.owner dst tid now = .error ContractError.NFTLocked) ∧
    (∀ caller nowS s', execSettle s caller tid nowS = .ok s' →
      ∀ dst nowT, dst ≠ tok.owner →
        ∃ s2, execTransfer s' tok.owner dst tid nowT = .ok s2) := by
  refine ⟨?_, ?_, ?_⟩
  · intro src dst now
    have herr : ∃ e, execTransfer s src dst tid now = .error e := by
      by_cases hadmin : s.admin = none
      · exact ⟨ContractError.NotInitialized, by simp [execTransfer, hadmin]⟩
      by_cases hp : s.paused
      · exact ⟨ContractError.Paused, by simp [execTransfer, hadmin, hp]⟩
      by_cases hsr : src ≠ tok.owner
      · exact ⟨ContractError.NotOwner, by simp [execTransfer, hadmin, hp, hlook, hsr]⟩
      by_cases hd : dst = src
      · exact ⟨ContractError.TransferToZeroAddress,
          by simp [execTransfer, hadmin, hp, hlook, hsr, hd]⟩
      · exact ⟨ContractError.NFTLocked,
          by simp [execTransfer, hadmin, hp, hlook, hsr, hd, hact]⟩
    refine ⟨herr, ?_⟩
    obtain ⟨e, he⟩ := herr
    simp [stepReg, execOp, he]
  · intro hadmin hp dst now hdst
    simp [execTransfer, hadmin, hp, hlook, hact, hdst]
  · intro caller nowS s' hsettle dst nowT hdst
    simp only [execSettle] at hsettle
    split at hsettle
    · cases hsettle
    rename_i hadmin
    split at hsettle
    · cases hsettle
    split at hsettle
    · cases hsettle
    rename_i hpause
    split at hsettle
    · cases hsettle
    rename_i tok0 heq0
    split at hsettle
    · cases hsettle
    split at hsettle
    · cases hsettle
    simp only [Except.ok.injEq] at hsettle
    rw [hlook] at heq0
    injection heq0 with he
    subst he
    have htok : alookup s'.tokens tid = some { tok with is_active := false } := by
      rw [← hsettle]
      exact alookup_aset_self _ _ _
    have hadmin2 : ¬(s'.admin = none) := by
      rw [← hsettle]
      exact hadmin
    have hpause2 : ¬(s'.paused = true) := by
      rw [← hsettle]
      exact hpause
    simp [execTransfer, hadmin2, hpause2, htok, hdst]

/-- Witness for C4 on the concrete state sW with its active token 0. -/
theorem C4_active_token_locked_witness :
    (∀ src dst now, (∃ e, execTransfer sW src dst 0 now = .error e) ∧
      stepReg sW (RegOp.transfer src dst 0 now) = sW) ∧
    (sW.admin ≠ none → sW.paused = false → ∀ dst now, dst ≠ tokW.owner →
      execTransfer sW tokW.owner dst 0 now = .error ContractError.NFTLocked) ∧
    (∀ caller nowS s', execSettle sW caller 0 nowS = .ok s' →
      ∀ dst nowT, dst ≠ tokW.owner →
        ∃ s2, execTransfer s' tokW.owner dst 0 nowT = .ok s2) :=
  C4_active_token_locked sW 0 tokW (by decide) rfl

/-- C5: a successful settle flips is_active to false, changes no balance,
the supply, and adds exactly one event; the immediate second settle of the
same token by the same caller fails AlreadySettled and leaves the state
(hence also the event count) unchanged. -/
theorem C5_settle_frame (s s' : RegistryState) (caller : Address) (tid now now2 : Nat)
    (h : execSettle s caller tid now = .ok s') :
    isActive s' tid = .ok false ∧
    totalSupply s' = totalSupply s ∧
    (∀ a, balanceOf s' a = balanceOf s a) ∧
    s'.events.length = s.events.length + 1 ∧
    execSettle s' caller tid now2 = .error ContractError.AlreadySettled ∧
    stepReg s' (RegOp.settle caller tid now2) = s' := by
  simp only [execSettle] at h
  split at h
  · cases h
  rename_i hadmin
  split at h
  · cases h
  rename_i hblock
  split at h
  · cases h
  rename_i hpause
  split at h
  · cases h
  rename_i tok heq
  split at h
  · cases h
  split at h
  · cases h
  simp only [Except.ok.injEq] at h
  have htok : alookup s'.tokens tid = some { tok with is_active := false } := by
    rw [← h]
    exact alookup_aset_self _ _ _
  have hadmin2 : ¬(s'.admin = none) := by
    rw [← h]
    exact hadmin
  have hpause2 : ¬(s'.paused = true) := by
    rw [← h]
    exact hpause
  have hblock2 : blockedByCore s' caller = false := by
    rw [← h]
    simpa using hblock
  have hsupply : s'.supply = s.supply := by
    rw [← h]
  have hbal : s'.balances = s.balances := by
    rw [← h]
  have hevents : s'.events = s.events ++ [RegEvent.SettleEv tid now] := by
    rw [← h]
  have hset2 : execSettle s' caller tid now2 = .error ContractError.AlreadySettled := by
    simp [execSettle, hadmin2, hpause2, hblock2, htok]
  refine ⟨?_, ?_, ?_, ?_, hset2, ?_⟩
  · simp [isActive, htok]
  · simp [totalSupply, hsupply]
  · intro a
    simp [balanceOf, hbal]
  · simp [hevents]
  · simp [stepReg, execOp, hset2]

/-- Witness for C5: settling token 0 of sW at time 172800 and then
attempting a second settle at a later time. -/
theorem C5_settle_frame_witness :
    isActive sWsettled 0 = .ok false ∧
    totalSupply sWsettled = totalSupply sW ∧
    (∀ a, balanceOf sWsettled a = balanceOf sW a) ∧
    sWsettled.events.length = sW.events.length + 1 ∧
    execSettle sWsettled 9 0 999999 = .error ContractError.AlreadySettled ∧
    stepReg sWsettled (RegOp.settle 9 0 999999) = sWsettled :=
  C5_settle_frame sW sWsettled 9 0 172800 999999 (by decide)

/-- C2 (amended): attest classifies its failures in order: Unauthorized
exactly when the caller is not a whitelisted verifier (so also on a
never-initialized engine, whose whitelist is empty, and regardless of
whether the commitment exists), CommitmentNotFound exactly when a
verifier attests a missing commitment, and InvalidAttestationType exactly
when a verifier attests an existing commitment with an unregistered
type. -/
theorem C2_attest_check_order (core : CoreState) (s : EngineState) (caller : Address)
    (cid atype : String) (data : List (String × String)) (compliant : Bool) (now : Nat) :
    (attest core s caller cid atype data compliant now =
        .error AttestationError.Unauthorized ↔ caller ∉ s.verifiers) ∧
    (attest core s caller cid atype data compliant now =
        .error AttestationError.CommitmentNotFound ↔
      caller ∈ s.verifiers ∧ alookup core.commitments cid = none) ∧
    (attest core s caller cid atype data compliant now =
        .error AttestationError.InvalidAttestationType ↔
      caller ∈ s.verifiers ∧ (∃ c, alookup core.commitments cid = some c) ∧
        atype ∉ s.att_types) := by
  by_cases hv : caller ∈ s.verifiers
  · cases hc : alookup core.commitments cid with
    | none => simp [attest, hv, hc]
    | some c =>
      by_cases ht : atype ∈ s.att_types
      · simp [attest, hv, hc, ht]
      · simp [attest, hv, hc, ht]
  · simp [attest, hv]

/-- Counterexample for C2 as stated: on a freshly deployed, never
initialized engine, attest fails with Unauthorized (the error the repo's
test_attest_without_initialize_fails asserts), not NotInitialized. -/
theorem C2_counterexample :
    attest emptyCore emptyEngine 4 "c_uninitialized" "health_check" [] true 0 =
      .error AttestationError.Unauthorized ∧
    AttestationError.Unauthorized ≠ AttestationError.NotInitialized := by
  exact ⟨by decide, by decide⟩

/-- Witness for the amended C2: a non-verifier caller on the concrete
initialized engine engineW is rejected Unauthorized. -/
theorem C2_attest_check_order_witness :
    attest coreW engineW 9 "cm1" "health_check" [] true 0 =
      .error AttestationError.Unauthorized :=
  (C2_attest_check_order coreW engineW 9 "cm1" "health_check" [] true 0).1.mpr (by decide)

/-- C6: updating an active commitment to a value whose drawdown percent
strictly exceeds rules.max_loss_percent marks it violated, and
verify_compliance then reports false whatever the engine state. -/
theorem C6_drawdown_violation (s : CoreState) (eng : EngineState) (cid : String)
    (c : Commitment) (v : Int)
    (h1 : alookup s.commitments cid = some c)
    (h2 : c.status = CommitmentStatus.active)
    (h3 : 0 < c.amount)
    (h4 : (c.rules.max_loss_percent : Int) < drawdownPercent c.amount v) :
    ∃ s', update_value s cid v = .ok s' ∧
      alookup s'.commitments cid =
        some { c with current_value := v, status := CommitmentStatus.violated } ∧
      verify_compliance s' eng cid = false := by
  have hupd : update_value s cid v = .ok ⟨aset s.commitments cid
      { c with current_value := v, status := CommitmentStatus.violated }⟩ := by
    simp only [update_value, h1]
    rw [if_neg (fun hne => hne h2)]
    simp only [if_pos h4]
  refine ⟨_, hupd, alookup_aset_self _ _ _, ?_⟩
  have hnle : ¬(drawdownPercent c.amount v ≤ (c.rules.max_loss_percent : Int)) :=
    not_le.2 h4
  simp [verify_compliance, alookup_aset_self, hnle]

/-- Witness for C6: a 20 percent drawdown against a 10 percent limit on
the concrete ledger coreW. -/
theorem C6_drawdown_violation_witness :
    ∃ s', update_value coreW "cm1" 800 = .ok s' ∧
      alookup s'.commitments "cm1" =
        some { cW with current_value := 800, status := CommitmentStatus.violated } ∧
      verify_compliance s' engineW "cm1" = false :=
  C6_drawdown_violation coreW engineW "cm1" cW 800 (by decide) rfl (by decide) (by decide)

/-- C8: every successful mint stores created_at = now and expires_at
computed by the saturating u64 addition of now and duration_days * 86400;
in particular, when the validation preconditions hold and the sum does
not overflow u64, mint with duration_days = u32 MAX succeeds and stores
expires_at = created_at + 4294967295 * 86400. -/
theorem C8_expires_at_saturating (s s' : RegistryState) (caller owner : Address)
    (cid : String) (duration maxLoss : Nat) (ctype : String) (amount : Int)
    (asset : Address) (penalty now : Nat) :
    (execMint s caller owner cid duration maxLoss ctype amount asset penalty now =
        .ok s' →
      ∃ tok, alookup s'.tokens s.next_id = some tok ∧
        tok.metadata.created_at = now ∧
        tok.metadata.expires_at = satAdd64 now (duration * 86400)) ∧
    (s.admin ≠ none → s.core = none → s.paused = false →
      (ctype = "safe" ∨ ctype = "balanced" ∨ ctype = "aggressive") →
      1 ≤ cid.length → cid.length ≤ 256 → maxLoss ≤ 100 →
      now + 4294967295 * 86400 ≤ U64M →
      ∃ s2 tok, execMint s caller owner cid 4294967295 maxLoss ctype amount asset
          penalty now = .ok s2 ∧
        alookup s2.tokens s.next_id = some tok ∧
        tok.metadata.expires_at = now + 4294967295 * 86400) := by
  constructor
  · intro h
    simp only [execMint] at h
    split at h
    · cases h
    split at h
    · cases h
    split at h
    · cases h
    split at h
    · cases h
    split at h
    · cases h
    split at h
    · cases h
    split at h
    · cases h
    simp only [Except.ok.injEq] at h
    rw [← h]
    exact ⟨_, alookup_aset_self _ _ _, rfl, rfl⟩
  · intro hadmin hcore hpaused hctype hlen1 hlen2 hml hnov
    have hb : blockedByCore s caller = false := by
      simp [blockedByCore, hcore]
    have hsat : satAdd64 now (4294967295 * 86400) = now + 4294967295 * 86400 :=
      min_eq_left hnov
    simp only [execMint]
    rw [if_neg hadmin]
    rw [if_neg (show ¬(blockedByCore s caller = true) from by simp [hb])]
    rw [if_neg (show ¬(s.paused = true) from by simp [hpaused])]
    rw [if_neg (not_not_intro hctype)]
    rw [if_neg (show ¬(cid.length = 0 ∨ 256 < cid.length) from by omega)]
    rw [if_neg (show ¬((4294967295 : Nat) = 0) from by omega)]
    rw [if_neg (show ¬(100 < maxLoss) from by omega)]
    exact ⟨_, _, rfl, alookup_aset_self _ _ _, hsat⟩

/-- Witness for C8: the mint of opsW (part one) and a u32 MAX duration
mint from the initialized registry sInit (part two). -/
theorem C8_expires_at_saturating_witness :
    (∃ tok, alookup sW.tokens sInit.next_id = some tok ∧
      tok.metadata.created_at = 0 ∧
      tok.metadata.expires_at = satAdd64 0 (1 * 86400)) ∧
    (∃ s2 tok, execMint sInit 9 5 "c1" 4294967295 10 "safe" 1000 8 5 0 = .ok s2 ∧
      alookup s2.tokens sInit.next_id = some tok ∧
      tok.metadata.expires_at = 0 + 4294967295 * 86400) := by
  constructor
  · exact (C8_expires_at_saturating sInit sW 9 5 "c1" 1 10 "safe" 1000 8 5 0).1
      (by decide)
  · exact (C8_expires_at_saturating sInit sW 9 5 "c1" 1 10 "safe" 1000 8 5 0).2
      (by decide) (by decide) (by decide) (Or.inl rfl) (by decide) (by decide)
      (by decide) (by decide)

/-- C9: early_exit on an active commitment whose current value is 0
completes, returns penalty 0 and returned amount 0, and marks the
commitment early_exit. -/
theorem C9_early_exit_zero_value (s : CoreState) (cid : String) (c : Commitment)
    (h1 : alookup s.commitments cid = some c)
    (h2 : c.status = CommitmentStatus.active)
    (h3 : c.current_value = 0) :
    ∃ s', early_exit s cid c.owner = .ok (s', 0, 0) ∧
      alookup s'.commitments cid = some { c with status := CommitmentStatus.early_exit } := by
  have hex : early_exit s cid c.owner = .ok (⟨aset s.commitments cid
      { c with status := CommitmentStatus.early_exit }⟩, 0, 0) := by
    simp only [early_exit, h1]
    rw [if_neg (fun hne => hne h2)]
    rw [if_neg (show ¬(c.owner ≠ c.owner) from fun hne => hne rfl)]
    rw [h3]
    norm_num [satMulI128, I128M]
  exact ⟨_, hex, alookup_aset_self _ _ _⟩

/-- Witness for C9 on the concrete zero-valued commitment cm0 of coreW. -/
theorem C9_early_exit_zero_value_witness :
    ∃ s', early_exit coreW "cm0" cW0.owner = .ok (s', 0, 0) ∧
      alookup s'.commitments "cm0" =
        some { cW0 with status := CommitmentStatus.early_exit } :=
  C9_early_exit_zero_value coreW "cm0" cW0 (by decide) rfl rfl

end CommitLabs
